import Mathlib

/-!
Verification of the BusTub buffer-pool core: a shallow embedding of
`src/buffer/clock_replacer.cpp` and `src/buffer/buffer_pool_manager.cpp`.

The C++ state is modelled explicitly:
* `std::unordered_map` becomes an association list over `Nat` keys
  (`alookup` / `aset` / `aerase` mirror `find`, `operator[]` assignment and
  `erase`);
* the `std::list` of the clock replacer becomes a `List Nat`, and the
  `header_` iterator becomes an index into that list, with
  `header = list.length` playing the role of the `end()` iterator;
* iterator dereference of `end()` (undefined behaviour in C++) makes an
  operation return `none`;
* the `while (true)` scan of `ClockReplacer::Victim` is modelled with explicit
  fuel, one unit of fuel per inspected entry; running out of fuel returns
  `none` (the C++ loop would not have terminated within that many
  inspections);
* the `DiskManager` and the `Page` class are not part of the two source
  files, so they are modelled from the spec (see their doc comments); disk
  calls are recorded in an event trace.
-/

/-- Association-list lookup over `Nat` keys; mirrors `unordered_map::find`. -/
def alookup {α : Type} : List (Nat × α) → Nat → Option α
  | [], _ => none
  | e :: es, k => if e.1 = k then some e.2 else alookup es k

/-- Association-list update; mirrors assignment through `unordered_map::operator[]`:
replace the value if the key is present, otherwise add the binding. -/
def aset {α : Type} : List (Nat × α) → Nat → α → List (Nat × α)
  | [], k, v => [(k, v)]
  | e :: es, k, v => if e.1 = k then (k, v) :: es else e :: aset es k v

/-- Association-list erase of a key; mirrors `unordered_map::erase`. -/
def aerase {α : Type} : List (Nat × α) → Nat → List (Nat × α)
  | [], _ => []
  | e :: es, k => if e.1 = k then es else e :: aerase es k

/-- Keys are pairwise distinct, as in an `unordered_map`. -/
def NodupKeys {α : Type} (l : List (Nat × α)) : Prop :=
  l.Pairwise (fun a b => a.1 ≠ b.1)

/-- The clock replacer state of `clock_replacer.cpp`: the circular list
`list_` of candidate frames, the reference-bit map `ref_`, and the clock hand
`header_`, modelled as an index into `list` (`header = list.length` models the
`end()` iterator).  `max_num_pages` is stored by the constructor and never
read afterwards, exactly as in the source. -/
structure ClockReplacer where
  max_num_pages : Nat
  list : List Nat
  ref : List (Nat × Bool)
  header : Nat
deriving DecidableEq, Repr

/-- The constructor `ClockReplacer::ClockReplacer`: empty list, empty map,
hand at `end()`. -/
def ClockReplacer.mk0 (num_pages : Nat) : ClockReplacer :=
  ⟨num_pages, [], [], 0⟩

/-- `ClockReplacer::Size`. -/
def ClockReplacer.Size (s : ClockReplacer) : Nat := s.list.length

/-- `ClockReplacer::Unpin`: if the frame is already in `ref_`, return; else
append it to the list, set its reference bit to false, and if the hand was
`end()`, move it to the head. -/
def ClockReplacer.Unpin (s : ClockReplacer) (frame_id : Nat) : ClockReplacer :=
  match alookup s.ref frame_id with
  | some _ => s
  | none =>
    { s with
      list := s.list ++ [frame_id]
      ref := aset s.ref frame_id false
      header := if s.header = s.list.length then 0 else s.header }

/-- `ClockReplacer::Pin`.  The C++ body begins with `*header_ == frame_id`,
an unguarded dereference of the hand: when the hand is the `end()` iterator
this is undefined behaviour, modelled as `none`.  Otherwise: if the hand's
frame is the argument, the hand node is erased and the hand advances; else if
the frame is in `ref_`, it is removed from the list (`remove_if`) and the map.
The hand index is adjusted for list elements removed in front of it. -/
def ClockReplacer.Pin (s : ClockReplacer) (frame_id : Nat) : Option ClockReplacer :=
  if s.header < s.list.length then
    if s.list.getD s.header 0 = frame_id then
      some { s with
        list := s.list.eraseIdx s.header
        ref := aerase s.ref frame_id
        header := s.header }
    else
      match alookup s.ref frame_id with
      | some _ =>
        some { s with
          list := s.list.filter (fun x => x ≠ frame_id)
          ref := aerase s.ref frame_id
          header := s.header - (s.list.take s.header).count frame_id }
      | none => some s
  else
    none

/-- The scan loop of `ClockReplacer::Victim`, with one unit of fuel per
inspected entry.  Result: `none` when the fuel is exhausted (the C++ loop did
not return within that many inspections), `some none` when the loop returns
`false`, and `some (some (v, list, ref, header))` when it returns `true` with
victim `v` and the updated replacer fields. -/
def victimScan (fuel : Nat) (l : List Nat) (ref : List (Nat × Bool)) (it : Nat) :
    Option (Option (Nat × List Nat × List (Nat × Bool) × Nat)) :=
  match fuel with
  | 0 => none
  | fuel + 1 =>
    if l = [] ∨ ref = [] then
      some none
    else
      match alookup ref (l.getD it 0) with
      | some false =>
        some (some (l.getD it 0, l.eraseIdx it, aerase ref (l.getD it 0), it))
      | some true =>
        victimScan fuel l (aset ref (l.getD it 0) false)
          (if it + 1 = l.length then 0 else it + 1)
      | none =>
        victimScan fuel l ref (if it + 1 = l.length then 0 else it + 1)

/-- `ClockReplacer::Victim` with explicit fuel for the scan loop: return
failure if the list is empty or the hand is `end()`, else run the scan from
the hand. -/
def ClockReplacer.VictimF (fuel : Nat) (s : ClockReplacer) :
    Option (Option (Nat × ClockReplacer)) :=
  if s.list = [] ∨ s.list.length ≤ s.header then
    some none
  else
    match victimScan fuel s.list s.ref s.header with
    | none => none
    | some none => some none
    | some (some (v, l, r, h)) => some (some (v, { s with list := l, ref := r, header := h }))

/-- `ClockReplacer::Victim` as invoked by the buffer pool manager.  Fuel
`2 * |list| + 1` is more than the scan can consume when every listed frame has
a reference bit (each `true` bit is cleared on first visit), so `none` still
faithfully marks the diverging executions. -/
def ClockReplacer.Victim (s : ClockReplacer) : Option (Option (Nat × ClockReplacer)) :=
  ClockReplacer.VictimF (2 * s.list.length + 1) s

/-- One disk-manager event, as observed by the buffer pool. -/
inductive DiskOp where
  | read (page_id : Nat)
  | write (page_id : Nat) (v : Nat)
  | alloc (page_id : Nat)
  | dealloc (page_id : Nat)
deriving DecidableEq, Repr

/-- Modelled from the spec: the `DiskManager` is an external collaborator
(spec section 6) offering `read_page`, `write_page`, `allocate_page` (which
"returns a fresh identifier", modelled as an increasing counter starting at
zero) and `deallocate_page` (which "releases an identifier" and is otherwise
unobservable).  `content` is the persisted page store and `trace` the list of
calls the pool has issued. -/
structure DiskManager where
  content : List (Nat × Nat)
  next_page : Nat
  trace : List DiskOp
deriving DecidableEq, Repr

/-- A fresh disk with no pages and an empty trace. -/
def DiskManager.mk0 : DiskManager := ⟨[], 0, []⟩

/-- Modelled from the spec: `read_page` fills the buffer with the page bytes. -/
def DiskManager.ReadPage (d : DiskManager) (page_id : Nat) : Nat × DiskManager :=
  ((alookup d.content page_id).getD 0, { d with trace := d.trace ++ [.read page_id] })

/-- Modelled from the spec: `write_page` persists the buffer as the page content. -/
def DiskManager.WritePage (d : DiskManager) (page_id : Nat) (v : Nat) : DiskManager :=
  { d with content := aset d.content page_id v, trace := d.trace ++ [.write page_id v] }

/-- Modelled from the spec: `allocate_page` returns a fresh identifier. -/
def DiskManager.AllocatePage (d : DiskManager) : Nat × DiskManager :=
  (d.next_page,
   { d with next_page := d.next_page + 1, trace := d.trace ++ [.alloc d.next_page] })

/-- Modelled from the spec: `deallocate_page` releases an identifier. -/
def DiskManager.DeallocatePage (d : DiskManager) (page_id : Nat) : DiskManager :=
  { d with trace := d.trace ++ [.dealloc page_id] }

/-- Modelled from the spec: the `Page` physical representation (spec sections
3 and 4.3) — a byte buffer (abstracted to one value), a pin count and a dirty
flag.  Latches are not modelled (single-threaded embedding). -/
structure Page where
  data : Nat
  pin_count : Nat
  is_dirty : Bool
deriving DecidableEq, Repr

/-- A zeroed page: empty buffer, pin count 0, clean. -/
def Page.mk0 : Page := ⟨0, 0, false⟩

/-- The buffer pool manager state of `buffer_pool_manager.cpp`. -/
structure BufferPoolManager where
  pool_size : Nat
  pages : List Page
  page_table : List (Nat × Nat)
  frame_table : List (Nat × Nat)
  free_list : List Nat
  replacer : ClockReplacer
  disk_manager : DiskManager
deriving DecidableEq, Repr

/-- The constructor `BufferPoolManager::BufferPoolManager`: zeroed pages,
empty tables, every frame on the free list (in index order, drained
front-first), a fresh replacer and a fresh disk. -/
def BufferPoolManager.mk0 (pool_size : Nat) : BufferPoolManager :=
  ⟨pool_size, List.replicate pool_size Page.mk0, [], [],
   List.range pool_size, ClockReplacer.mk0 pool_size, DiskManager.mk0⟩

/-- `frame_table_[f]` read through `operator[]`: value-initialise (to 0) and
insert when the key is absent, exactly as the C++ subscript operator does. -/
def asubscript (m : List (Nat × Nat)) (k : Nat) : Nat × List (Nat × Nat) :=
  match alookup m k with
  | some v => (v, m)
  | none => (0, m ++ [(k, 0)])

/-- `BufferPoolManager::FetchPageImpl`.  Returns `none` for executions with
undefined behaviour (the replacer `Pin` dereferencing the `end()` iterator,
or a non-terminating victim scan); otherwise `some (r, s)` where `r` is the
returned frame id (`none` models `nullptr`). -/
def BufferPoolManager.FetchPageImpl (s : BufferPoolManager) (page_id : Nat) :
    Option (Option Nat × BufferPoolManager) :=
  match alookup s.page_table page_id with
  | some f =>
    match s.replacer.Pin f with
    | none => none
    | some rep => some (some f, { s with replacer := rep })
  | none =>
    match s.free_list with
    | f :: rest =>
      let rd := s.disk_manager.ReadPage page_id
      some (some f,
        { s with
          page_table := aset s.page_table page_id f
          frame_table := aset s.frame_table f page_id
          pages := s.pages.set f { s.pages.getD f Page.mk0 with data := rd.1 }
          free_list := rest
          replacer := s.replacer.Unpin f
          disk_manager := rd.2 })
    | [] =>
      match s.replacer.Victim with
      | none => none
      | some none => some (none, s)
      | some (some (rf, rep)) =>
        let sub := asubscript s.frame_table rf
        let fr := s.pages.getD rf Page.mk0
        let d1 := if fr.is_dirty then s.disk_manager.WritePage sub.1 fr.data else s.disk_manager
        let pt1 := aerase s.page_table sub.1
        let rd := d1.ReadPage page_id
        some (some rf,
          { s with
            page_table := aset pt1 page_id rf
            frame_table := aset sub.2 rf page_id
            pages := s.pages.set rf { fr with data := rd.1 }
            replacer := rep
            disk_manager := rd.2 })

/-- `BufferPoolManager::UnpinPageImpl`: if the page is not resident return
false; otherwise, when `is_dirty` is true, immediately write the frame to
disk, then `Unpin` the frame in the replacer and return true.  The pin count
is neither checked nor decremented by the source. -/
def BufferPoolManager.UnpinPageImpl (s : BufferPoolManager) (page_id : Nat)
    (is_dirty : Bool) : Bool × BufferPoolManager :=
  match alookup s.page_table page_id with
  | none => (false, s)
  | some f =>
    let d1 := if is_dirty then
        s.disk_manager.WritePage page_id (s.pages.getD f Page.mk0).data
      else s.disk_manager
    (true, { s with disk_manager := d1, replacer := s.replacer.Unpin f })

/-- `BufferPoolManager::FlushPageImpl`: false when not resident, else write
the frame to disk unconditionally and return true. -/
def BufferPoolManager.FlushPageImpl (s : BufferPoolManager) (page_id : Nat) :
    Bool × BufferPoolManager :=
  match alookup s.page_table page_id with
  | none => (false, s)
  | some f =>
    (true, { s with
      disk_manager := s.disk_manager.WritePage page_id (s.pages.getD f Page.mk0).data })

/-- `BufferPoolManager::NewPageImpl`.  `some (some (p, f), s)` models a
successful return of frame `f` with `*page_id = p`; `some (none, s)` models
returning `nullptr`; `none` models undefined behaviour in the victim scan. -/
def BufferPoolManager.NewPageImpl (s : BufferPoolManager) :
    Option (Option (Nat × Nat) × BufferPoolManager) :=
  match s.free_list with
  | f :: rest =>
    let al := s.disk_manager.AllocatePage
    some (some (al.1, f),
      { s with
        page_table := aset s.page_table al.1 f
        frame_table := aset s.frame_table f al.1
        free_list := rest
        disk_manager := al.2 })
  | [] =>
    if 0 < s.replacer.Size then
      match s.replacer.Victim with
      | none => none
      | some none => some (none, s)
      | some (some (rf, rep)) =>
        let sub := asubscript s.frame_table rf
        let fr := s.pages.getD rf Page.mk0
        let d1 := if fr.is_dirty then s.disk_manager.WritePage sub.1 fr.data else s.disk_manager
        let pt1 := aerase s.page_table sub.1
        let al := d1.AllocatePage
        some (some (al.1, rf),
          { s with
            page_table := aset pt1 al.1 rf
            frame_table := aset sub.2 rf al.1
            replacer := rep
            disk_manager := al.2 })
    else
      some (none, s)

/-- `BufferPoolManager::DeletePageImpl`: true when the page is not resident;
false when the frame's pin count is positive; otherwise deallocate the page
on disk, zero the frame's bytes (`ResetMemory`), erase both table entries,
and push the frame onto the free list.  The source does not touch the
replacer here. -/
def BufferPoolManager.DeletePageImpl (s : BufferPoolManager) (page_id : Nat) :
    Bool × BufferPoolManager :=
  match alookup s.page_table page_id with
  | none => (true, s)
  | some f =>
    let fr := s.pages.getD f Page.mk0
    if 0 < fr.pin_count then (false, s)
    else
      (true, { s with
        page_table := aerase s.page_table page_id
        frame_table := aerase s.frame_table f
        free_list := s.free_list ++ [f]
        pages := s.pages.set f { fr with data := 0 }
        disk_manager := s.disk_manager.DeallocatePage page_id })

/-- `BufferPoolManager::FlushAllPagesImpl`: write every resident page to disk
in page-table order. -/
def BufferPoolManager.FlushAllPagesImpl (s : BufferPoolManager) : BufferPoolManager :=
  { s with
    disk_manager := s.page_table.foldl
      (fun d e => d.WritePage e.1 (s.pages.getD e.2 Page.mk0).data) s.disk_manager }

/-! ## Concrete runs used by the theorems -/

/-- Pool of size 1 after `FetchPageImpl 0` on the fresh pool (the fetch
succeeds, via the free-list path). -/
def fetch1 : BufferPoolManager :=
  match BufferPoolManager.FetchPageImpl (BufferPoolManager.mk0 1) 0 with
  | some (_, s) => s
  | none => BufferPoolManager.mk0 1

/-- The state after `DeletePageImpl 0` on `fetch1`. -/
def del1 : BufferPoolManager :=
  (BufferPoolManager.DeletePageImpl fetch1 0).2

/-- A pool of size 1 holding page 5 in frame 0 with the frame dirty: the
page-table, frame-table and page-array contents are explicit. -/
def dirtyPool : BufferPoolManager :=
  ⟨1, [⟨7, 0, true⟩], [(5, 0)], [(0, 5)], [], ClockReplacer.mk0 1, DiskManager.mk0⟩

/-- Pool of size 2 after `FetchPageImpl 0` on the fresh pool. -/
def poolTwoFetch : BufferPoolManager :=
  match BufferPoolManager.FetchPageImpl (BufferPoolManager.mk0 2) 0 with
  | some (_, s) => s
  | none => BufferPoolManager.mk0 2

/-- `poolTwoFetch` after a further `NewPageImpl`. -/
def poolTwoRun : BufferPoolManager :=
  match BufferPoolManager.NewPageImpl poolTwoFetch with
  | some (_, s) => s
  | none => poolTwoFetch

/-- The state after `NewPageImpl` on the empty pool (which returns null). -/
def newNullRun : BufferPoolManager :=
  match BufferPoolManager.NewPageImpl (BufferPoolManager.mk0 0) with
  | some (_, s) => s
  | none => BufferPoolManager.mk0 0


/-- The well-formedness invariant every reachable replacer state satisfies:
the hand is at the head of the list (index 0; for the empty list this is
`end()`), the list has no duplicates, the reference map has no duplicate
keys, every listed frame has reference bit false, and the map's domain is
exactly the list.  Reference bits are never true in reachable states because
`Unpin` of an already-present frame returns early without touching the bit. -/
def ClockWF (s : ClockReplacer) : Prop :=
  s.header = 0 ∧ s.list.Nodup ∧ NodupKeys s.ref ∧
  (∀ x ∈ s.list, alookup s.ref x = some false) ∧
  (∀ k b, alookup s.ref k = some b → k ∈ s.list)

/-- Replacer states reachable through well-defined (undefined-behaviour-free)
calls of the public `ClockReplacer` interface, starting from the
constructor. -/
inductive ClockReach : ClockReplacer → Prop where
  | init (n : Nat) : ClockReach (ClockReplacer.mk0 n)
  | unpin {s : ClockReplacer} (f : Nat) : ClockReach s → ClockReach (s.Unpin f)
  | pin {s s' : ClockReplacer} {f : Nat} : ClockReach s → s.Pin f = some s' → ClockReach s'
  | victim {s s' : ClockReplacer} {v : Nat} : ClockReach s →
      s.Victim = some (some (v, s')) → ClockReach s'


/-- Clearing a run of reference bits: fold `aset · · false` over the listed
keys (the bit flips the scan performs, in visit order). -/
def clearKeys (ref : List (Nat × Bool)) (ks : List Nat) : List (Nat × Bool) :=
  ks.foldl (fun r k => aset r k false) ref

/-- The replacer state of spec scenario 5: frames [1,2,3] all unpinned,
reference bits [true, false, true], hand at frame 1. -/
def exReplacer : ClockReplacer := ⟨3, [1, 2, 3], [(1, true), (2, false), (3, true)], 0⟩


structure BPInv (s : BufferPoolManager) : Prop where
  ptft : ∀ p f, alookup s.page_table p = some f → alookup s.frame_table f = some p
  ftpt : ∀ f p, alookup s.frame_table f = some p → alookup s.page_table p = some f
  ndpt : NodupKeys s.page_table
  ndft : NodupKeys s.frame_table
  ndfree : s.free_list.Nodup
  freeNotRes : ∀ f ∈ s.free_list, alookup s.frame_table f = none
  frameCover : ∀ f, f < s.pool_size ↔ (f ∈ s.free_list ∨ alookup s.frame_table f ≠ none)
  capacity : s.page_table.length + s.free_list.length = s.pool_size
  repBound : ∀ x ∈ s.replacer.list, x < s.pool_size
  ptAlloc : ∀ p f, alookup s.page_table p = some f → p < s.disk_manager.next_page

/-- Buffer-pool states reachable through completed (undefined-behaviour-free)
public operations from the initial state, with `fetch_page` restricted to
page identifiers the DiskManager has already allocated. -/
inductive BPReach : BufferPoolManager → Prop where
  | init (n : Nat) : BPReach (BufferPoolManager.mk0 n)
  | fetch {s t : BufferPoolManager} {page_id : Nat} {r : Option Nat} :
      BPReach s → page_id < s.disk_manager.next_page →
      s.FetchPageImpl page_id = some (r, t) → BPReach t
  | unpin {s : BufferPoolManager} (page_id : Nat) (d : Bool) :
      BPReach s → BPReach (s.UnpinPageImpl page_id d).2
  | flush {s : BufferPoolManager} (page_id : Nat) :
      BPReach s → BPReach (s.FlushPageImpl page_id).2
  | newp {s t : BufferPoolManager} {r : Option (Nat × Nat)} :
      BPReach s → s.NewPageImpl = some (r, t) → BPReach t
  | del {s : BufferPoolManager} (page_id : Nat) :
      BPReach s → BPReach (s.DeletePageImpl page_id).2
  | flushAll {s : BufferPoolManager} :
      BPReach s → BPReach s.FlushAllPagesImpl

/-- Pool of size 2 after one `NewPageImpl` (page 0 in frame 0). -/
def wit1 : BufferPoolManager :=
  match BufferPoolManager.NewPageImpl (BufferPoolManager.mk0 2) with
  | some (_, s) => s
  | none => BufferPoolManager.mk0 2

/-- `wit1` after `UnpinPageImpl 0 false`. -/
def wit2 : BufferPoolManager := (BufferPoolManager.UnpinPageImpl wit1 0 false).2

/-- `wit2` after fetching the (allocated) page 0 again. -/
def wit3 : BufferPoolManager :=
  match BufferPoolManager.FetchPageImpl wit2 0 with
  | some (_, s) => s
  | none => wit2

/-! ## Theorems -/

/-! ### Association-list lemmas -/

theorem alookup_cons {α : Type} (e : Nat × α) (es : List (Nat × α)) (k : Nat) :
    alookup (e :: es) k = if e.1 = k then some e.2 else alookup es k := rfl

theorem aset_cons {α : Type} (e : Nat × α) (es : List (Nat × α)) (k : Nat) (v : α) :
    aset (e :: es) k v = if e.1 = k then (k, v) :: es else e :: aset es k v := rfl

theorem aerase_cons {α : Type} (e : Nat × α) (es : List (Nat × α)) (k : Nat) :
    aerase (e :: es) k = if e.1 = k then es else e :: aerase es k := rfl

theorem alookup_aset_self {α : Type} (l : List (Nat × α)) (k : Nat) (v : α) :
    alookup (aset l k v) k = some v := by
  induction l with
  | nil => simp [aset, alookup]
  | cons e es ih =>
    rw [aset_cons]
    by_cases h : e.1 = k
    · rw [if_pos h, alookup_cons, if_pos rfl]
    · rw [if_neg h, alookup_cons, if_neg h, ih]

theorem alookup_aset_ne {α : Type} (l : List (Nat × α)) {k kk : Nat} (v : α) (h : kk ≠ k) :
    alookup (aset l k v) kk = alookup l kk := by
  induction l with
  | nil =>
    show alookup [(k, v)] kk = none
    rw [alookup_cons, if_neg (fun hh : k = kk => h hh.symm)]
    rfl
  | cons e es ih =>
    rw [aset_cons]
    by_cases he : e.1 = k
    · rw [if_pos he, alookup_cons, alookup_cons, he]
      rw [if_neg (fun hh : k = kk => h hh.symm), if_neg (fun hh : k = kk => h hh.symm)]
    · rw [if_neg he, alookup_cons, alookup_cons, ih]

theorem alookup_aerase_ne {α : Type} (l : List (Nat × α)) {k kk : Nat} (h : kk ≠ k) :
    alookup (aerase l k) kk = alookup l kk := by
  induction l with
  | nil => rfl
  | cons e es ih =>
    rw [aerase_cons]
    by_cases he : e.1 = k
    · rw [if_pos he, alookup_cons, if_neg (fun hh : e.1 = kk => h (hh.symm.trans he))]
    · rw [if_neg he, alookup_cons, alookup_cons, ih]

theorem alookup_eq_none {α : Type} (l : List (Nat × α)) (k : Nat) (h : ∀ e ∈ l, e.1 ≠ k) :
    alookup l k = none := by
  induction l with
  | nil => rfl
  | cons e es ih =>
    rw [alookup_cons, if_neg (h e (List.mem_cons_self e es))]
    exact ih (fun x hx => h x (List.mem_cons_of_mem e hx))

theorem alookup_aerase_self {α : Type} (l : List (Nat × α)) (k : Nat) (h : NodupKeys l) :
    alookup (aerase l k) k = none := by
  induction l with
  | nil => rfl
  | cons e es ih =>
    have h1 := (List.pairwise_cons.mp h).1
    have hes := (List.pairwise_cons.mp h).2
    rw [aerase_cons]
    by_cases he : e.1 = k
    · rw [if_pos he]
      exact alookup_eq_none es k (fun x hx hh => h1 x hx (he.trans hh.symm))
    · rw [if_neg he, alookup_cons, if_neg he, ih hes]

theorem mem_aset {α : Type} {l : List (Nat × α)} {k : Nat} {v : α} {b : Nat × α}
    (h : b ∈ aset l k v) : b ∈ l ∨ b = (k, v) := by
  induction l with
  | nil => simp [aset] at h; simp [h]
  | cons e es ih =>
    rw [aset_cons] at h
    by_cases he : e.1 = k
    · rw [if_pos he] at h
      rcases List.mem_cons.mp h with h2 | h2
      · right; exact h2
      · left; exact List.mem_cons_of_mem e h2
    · rw [if_neg he] at h
      rcases List.mem_cons.mp h with h2 | h2
      · left; exact h2 ▸ List.mem_cons_self e es
      · rcases ih h2 with h3 | h3
        · left; exact List.mem_cons_of_mem e h3
        · right; exact h3

theorem mem_aerase {α : Type} {l : List (Nat × α)} {k : Nat} {b : Nat × α}
    (h : b ∈ aerase l k) : b ∈ l := by
  induction l with
  | nil => simp [aerase] at h
  | cons e es ih =>
    rw [aerase_cons] at h
    by_cases he : e.1 = k
    · rw [if_pos he] at h
      exact List.mem_cons_of_mem e h
    · rw [if_neg he] at h
      rcases List.mem_cons.mp h with h2 | h2
      · exact h2 ▸ List.mem_cons_self e es
      · exact List.mem_cons_of_mem e (ih h2)

theorem nodupKeys_aset {α : Type} {l : List (Nat × α)} {k : Nat} {v : α}
    (h : NodupKeys l) : NodupKeys (aset l k v) := by
  induction l with
  | nil => simp [aset, NodupKeys]
  | cons e es ih =>
    obtain ⟨h1, h2⟩ := List.pairwise_cons.mp h
    rw [aset_cons]
    by_cases he : e.1 = k
    · rw [if_pos he]
      exact List.pairwise_cons.mpr ⟨fun b hb => he ▸ h1 b hb, h2⟩
    · rw [if_neg he]
      refine List.pairwise_cons.mpr ⟨fun b hb => ?_, ih h2⟩
      rcases mem_aset hb with hb2 | hb2
      · exact h1 b hb2
      · rw [hb2]; exact he

theorem nodupKeys_aerase {α : Type} {l : List (Nat × α)} {k : Nat}
    (h : NodupKeys l) : NodupKeys (aerase l k) := by
  induction l with
  | nil => simp [aerase, NodupKeys]
  | cons e es ih =>
    obtain ⟨h1, h2⟩ := List.pairwise_cons.mp h
    rw [aerase_cons]
    by_cases he : e.1 = k
    · rw [if_pos he]; exact h2
    · rw [if_neg he]
      exact List.pairwise_cons.mpr ⟨fun b hb => h1 b (mem_aerase hb), ih h2⟩

theorem clockWF_removeHead {c : Nat} {tl : List Nat} {ref : List (Nat × Bool)} {n : Nat}
    (hnd : (c :: tl).Nodup) (hndk : NodupKeys ref)
    (hmem : ∀ x ∈ c :: tl, alookup ref x = some false)
    (hdom : ∀ k b, alookup ref k = some b → k ∈ c :: tl) :
    ClockWF ⟨n, tl, aerase ref c, 0⟩ := by
  refine ⟨rfl, (List.nodup_cons.mp hnd).2, nodupKeys_aerase hndk, ?_, ?_⟩
  · intro x hx
    have hxc : x ≠ c := fun he => (List.nodup_cons.mp hnd).1 (he ▸ hx)
    rw [alookup_aerase_ne ref hxc]
    exact hmem x (List.mem_cons_of_mem c hx)
  · intro k b hk
    by_cases hkc : k = c
    · rw [hkc, alookup_aerase_self ref c hndk] at hk
      exact Option.noConfusion hk
    · rw [alookup_aerase_ne ref hkc] at hk
      exact (List.mem_cons.mp (hdom k b hk)).resolve_left hkc

theorem clockWF_unpin (s : ClockReplacer) (f : Nat) (h : ClockWF s) :
    ClockWF (s.Unpin f) := by
  obtain ⟨hh, hnd, hndk, hmem, hdom⟩ := h
  unfold ClockReplacer.Unpin
  cases hf : alookup s.ref f with
  | some b => exact ⟨hh, hnd, hndk, hmem, hdom⟩
  | none =>
    have hfl : f ∉ s.list := by
      intro hin
      rw [hmem f hin] at hf
      exact Option.noConfusion hf
    refine ⟨?_, ?_, nodupKeys_aset hndk, ?_, ?_⟩
    · show (if s.header = s.list.length then 0 else s.header) = 0
      rw [hh]
      split <;> rfl
    · simp [List.nodup_append, hnd, hfl]
    · intro x hx
      rcases List.mem_append.mp hx with hx2 | hx2
      · have hxf : x ≠ f := fun he => hfl (he ▸ hx2)
        rw [alookup_aset_ne s.ref false hxf]
        exact hmem x hx2
      · rw [List.mem_singleton.mp hx2, alookup_aset_self]
    · intro k b hk
      by_cases hkf : k = f
      · exact List.mem_append_right _ (by simp [hkf])
      · rw [alookup_aset_ne s.ref false hkf] at hk
        exact List.mem_append_left _ (hdom k b hk)

theorem clockWF_pin (s s' : ClockReplacer) (f : Nat) (h : ClockWF s)
    (hp : s.Pin f = some s') : ClockWF s' := by
  obtain ⟨hh, hnd, hndk, hmem, hdom⟩ := h
  unfold ClockReplacer.Pin at hp
  by_cases hlt : s.header < s.list.length
  · rw [if_pos hlt] at hp
    cases hl : s.list with
    | nil => rw [hl] at hlt; exact absurd hlt (by simp)
    | cons c tl =>
      rw [hl] at hnd hmem hdom
      have hcur : s.list.getD s.header 0 = c := by rw [hl, hh]; rfl
      simp only [hcur] at hp
      by_cases hcf : c = f
      · rw [if_pos hcf] at hp
        injection hp with hp2
        subst hp2
        rw [hh, hl]
        rw [List.eraseIdx_cons_zero, ← hcf]
        exact clockWF_removeHead hnd hndk hmem hdom
      · rw [if_neg hcf] at hp
        cases hf : alookup s.ref f with
        | none =>
          rw [hf] at hp
          injection hp with hp2
          subst hp2
          rw [← hl] at hnd hmem hdom
          exact ⟨hh, hnd, hndk, hmem, hdom⟩
        | some b =>
          rw [hf] at hp
          injection hp with hp2
          subst hp2
          refine ⟨by rw [hh]; rfl, List.Nodup.filter _ (hl ▸ hnd), nodupKeys_aerase hndk, ?_, ?_⟩
          · intro x hx
            have hx2 := List.mem_filter.mp hx
            have hxf : x ≠ f := by simpa using hx2.2
            rw [alookup_aerase_ne s.ref hxf]
            exact hmem x (hl ▸ hx2.1)
          · intro k b2 hk
            by_cases hkf : k = f
            · rw [hkf, alookup_aerase_self s.ref f hndk] at hk
              exact Option.noConfusion hk
            · rw [alookup_aerase_ne s.ref hkf] at hk
              exact List.mem_filter.mpr ⟨hl ▸ hdom k b2 hk, by simpa using hkf⟩
  · rw [if_neg hlt] at hp
    exact Option.noConfusion hp

theorem victimScan_head_false (fuel : Nat) (c : Nat) (tl : List Nat)
    (ref : List (Nat × Bool)) (h : alookup ref c = some false) :
    victimScan (fuel + 1) (c :: tl) ref 0 = some (some (c, tl, aerase ref c, 0)) := by
  have hne : ref ≠ [] := by intro he; rw [he] at h; exact Option.noConfusion h
  unfold victimScan
  simp [hne, h, List.eraseIdx]

theorem clockWF_victim (s s' : ClockReplacer) (v : Nat) (h : ClockWF s)
    (hp : s.Victim = some (some (v, s'))) : ClockWF s' := by
  obtain ⟨hh, hnd, hndk, hmem, hdom⟩ := h
  unfold ClockReplacer.Victim ClockReplacer.VictimF at hp
  cases hl : s.list with
  | nil => rw [hl] at hp; simp at hp
  | cons c tl =>
    rw [hl] at hnd hmem hdom
    have hcl : ¬(s.list = [] ∨ s.list.length ≤ s.header) := by
      rw [hl, hh]; simp
    rw [if_neg hcl] at hp
    have hsc : victimScan (2 * s.list.length + 1) s.list s.ref s.header =
        some (some (c, tl, aerase s.ref c, 0)) := by
      rw [hl, hh]
      exact victimScan_head_false (2 * (c :: tl).length) c tl s.ref
        (hmem c (List.mem_cons_self c tl))
    rw [hsc] at hp
    injection hp with hp2
    injection hp2 with hp3
    have hs' : s' = ⟨s.max_num_pages, tl, aerase s.ref c, 0⟩ := (congrArg Prod.snd hp3).symm
    rw [hs']
    exact clockWF_removeHead hnd hndk hmem hdom

theorem clockWF_of_reach (s : ClockReplacer) (h : ClockReach s) : ClockWF s := by
  induction h with
  | init n =>
    refine ⟨rfl, List.nodup_nil, List.Pairwise.nil, ?_, ?_⟩
    · intro x hx; exact absurd hx (List.not_mem_nil x)
    · intro k b hk; exact Option.noConfusion hk
  | unpin f _ ih => exact clockWF_unpin _ f ih
  | pin _ hp ih => exact clockWF_pin _ _ _ ih hp
  | victim _ hp ih => exact clockWF_victim _ _ _ ih hp

theorem victimF_cons_of_WF (s : ClockReplacer) (c : Nat) (tl : List Nat) (fuel : Nat)
    (hwf : ClockWF s) (hl : s.list = c :: tl) :
    ClockReplacer.VictimF (fuel + 1) s =
      some (some (c, ⟨s.max_num_pages, tl, aerase s.ref c, 0⟩)) := by
  obtain ⟨hh, hnd, hndk, hmem, hdom⟩ := hwf
  unfold ClockReplacer.VictimF
  rw [if_neg (by rw [hl, hh]; simp)]
  have hsc : victimScan (fuel + 1) s.list s.ref s.header =
      some (some (c, tl, aerase s.ref c, 0)) := by
    rw [hl, hh]
    exact victimScan_head_false fuel c tl s.ref (hmem c (hl ▸ List.mem_cons_self c tl))
  rw [hsc]


/-- C5.  On every reachable replacer state, `victim` fails exactly when the
list `L` is empty; whenever `L` is non-empty the scan outputs a victim within
at most `2·|L|` inspections (the fuel argument bounds the number of
inspections).  In reachable states the hand is at the head and every listed
frame has reference bit false, so the very first inspection succeeds. -/
theorem victim_fails_iff_empty_on_reachable (s : ClockReplacer) (h : ClockReach s) :
    (ClockReplacer.VictimF (2 * s.list.length) s = some none ↔ s.list = []) ∧
    (s.list ≠ [] → ∃ v t, ClockReplacer.VictimF (2 * s.list.length) s = some (some (v, t))) := by
  cases hl : s.list with
  | nil =>
    refine ⟨⟨fun _ => rfl, fun _ => ?_⟩, fun hne => absurd rfl hne⟩
    unfold ClockReplacer.VictimF
    rw [if_pos (Or.inl hl)]
  | cons c tl =>
    have h2 : 2 * (c :: tl).length = 2 * tl.length + 1 + 1 := by
      rw [List.length_cons]
      ring
    have hs := victimF_cons_of_WF s c tl (2 * tl.length + 1) (clockWF_of_reach s h) hl
    rw [h2, hs]
    exact ⟨⟨fun hx => Option.noConfusion (Option.some.inj hx),
      fun hx => List.noConfusion hx⟩, fun _ => ⟨c, _, rfl⟩⟩

/-- C5 witness: the reachable state after `Unpin 1` on a fresh replacer has a
non-empty list, and `victim` with fuel `2·|L|` succeeds on it. -/
theorem victim_fails_iff_empty_witness :
    ∃ v t, ClockReplacer.VictimF (2 * ((ClockReplacer.mk0 1).Unpin 1).list.length)
      ((ClockReplacer.mk0 1).Unpin 1) = some (some (v, t)) :=
  (victim_fails_iff_empty_on_reachable ((ClockReplacer.mk0 1).Unpin 1)
    (ClockReach.unpin 1 (ClockReach.init 1))).2 (by decide)

/-- C1.  The claim states that a successful `fetch_page` leaves the fetched
frame pinned and outside the replacer.  The code does the opposite on the
page-table-miss path: on a fresh pool of size 1, `FetchPageImpl 0` succeeds
and returns frame 0, yet the pin count of frame 0 is still 0, the frame sits
in the replacer, and an immediate `Victim` call would evict exactly that
frame. -/
theorem fetch_on_fresh_pool_not_pinned :
    BufferPoolManager.FetchPageImpl (BufferPoolManager.mk0 1) 0 = some (some 0, fetch1) ∧
    fetch1.replacer.list = [0] ∧
    (fetch1.pages.getD 0 Page.mk0).pin_count = 0 ∧
    (fetch1.replacer.Victim.map (fun r => r.map (fun p => p.1))) = some (some 0) :=
  ⟨rfl, rfl, rfl, rfl⟩

/-- C2.  The claim states that `unpin_page(page_id, true)` issues no disk
write.  The code issues one immediately: after fetching page 0 into the
fresh pool of size 1 the disk trace is a single read, and the unpin call
appends a `write_page` event during the call itself. -/
theorem unpin_dirty_writes_immediately :
    fetch1.disk_manager.trace = [DiskOp.read 0] ∧
    (BufferPoolManager.UnpinPageImpl fetch1 0 true).2.disk_manager.trace =
      [DiskOp.read 0, DiskOp.write 0 0] :=
  ⟨rfl, rfl⟩

/-- C3.  The claim states that `unpin_page` on a resident page whose pin
count is zero returns false, and otherwise decrements the pin count.  The
code neither checks nor decrements any pin count: after fetching page 0 the
pin count of its frame is 0 (the fetch never incremented it), yet
`UnpinPageImpl` returns true, and the pin count is still 0 afterwards. -/
theorem unpin_zero_pin_count_returns_true :
    (fetch1.pages.getD 0 Page.mk0).pin_count = 0 ∧
    (BufferPoolManager.UnpinPageImpl fetch1 0 false).1 = true ∧
    ((BufferPoolManager.UnpinPageImpl fetch1 0 false).2.pages.getD 0 Page.mk0).pin_count = 0 :=
  ⟨rfl, rfl, rfl⟩

/-- C4.  The claim states that a successful `delete_page` erases both table
entries, pushes the frame on the free list, calls `deallocate_page`, and
removes the frame from the replacer via `replacer.pin`.  The code performs
all of it except the replacer removal: after `FetchPageImpl 0` on the fresh
pool of size 1 (which put frame 0 into the replacer), `DeletePageImpl 0`
returns true, frame 0 is simultaneously on the free list and in the
replacer, violating the claimed invariant. -/
theorem delete_leaves_frame_in_replacer :
    BufferPoolManager.DeletePageImpl fetch1 0 = (true, del1) ∧
    del1.free_list = [0] ∧
    del1.replacer.list = [0] ∧
    alookup del1.page_table 0 = none ∧
    alookup del1.frame_table 0 = none ∧
    del1.disk_manager.trace = [DiskOp.read 0, DiskOp.dealloc 0] :=
  ⟨rfl, rfl, rfl, rfl, rfl, rfl⟩

/-- C7.  The claim states that `pin` on a frame not in the replacer is a safe
no-op, including when the list is empty, and that the hand is never
dereferenced when the list is empty.  The code dereferences `*header_`
before any guard; on a freshly constructed replacer the hand is the `end()`
iterator and the dereference is undefined behaviour, modelled as `none`. -/
theorem pin_on_empty_replacer_undefined :
    ClockReplacer.Pin (ClockReplacer.mk0 1) 0 = none :=
  rfl

/-- C8 counterexample.  The claim states that `flush_page` on a resident page
clears the frame's dirty flag.  On a pool holding page 5 in frame 0 with the
frame dirty, `FlushPageImpl 5` returns true but leaves the dirty flag set:
the code never writes the flag. -/
theorem flush_leaves_dirty_flag_counterexample :
    (BufferPoolManager.FlushPageImpl dirtyPool 5).1 = true ∧
    ((BufferPoolManager.FlushPageImpl dirtyPool 5).2.pages.getD 0 Page.mk0).is_dirty = true :=
  ⟨rfl, rfl⟩

/-- C8 amended.  `flush_page` returns false when the page is not resident;
when it is resident it issues a `write_page` of the frame's contents even if
the frame is clean, returns true, and leaves the page array — hence both the
dirty flag and the pin count — and every other pool field unchanged. -/
theorem flush_spec_amended (s : BufferPoolManager) (page_id : Nat) :
    (alookup s.page_table page_id = none →
      BufferPoolManager.FlushPageImpl s page_id = (false, s)) ∧
    (∀ f, alookup s.page_table page_id = some f →
      BufferPoolManager.FlushPageImpl s page_id =
        (true, { s with
          disk_manager := s.disk_manager.WritePage page_id (s.pages.getD f Page.mk0).data })) := by
  constructor
  · intro h
    simp [BufferPoolManager.FlushPageImpl, h]
  · intro f h
    simp [BufferPoolManager.FlushPageImpl, h]

/-- C8 amended, witness: the resident branch at `dirtyPool`, page 5, frame 0
(contents 7). -/
theorem flush_spec_amended_witness :
    BufferPoolManager.FlushPageImpl dirtyPool 5 =
      (true, { dirtyPool with disk_manager := dirtyPool.disk_manager.WritePage 5 7 }) :=
  (flush_spec_amended dirtyPool 5).2 0 rfl

/-- C9 counterexample.  The claim states the capacity invariant for every
operation sequence from the initial state.  On a pool of size 2, the defined
and successful sequence `FetchPageImpl 0` (a page identifier never allocated
by the disk manager) followed by `NewPageImpl` breaks it: `AllocatePage`
hands out identifier 0, which is already resident, so the page-table insert
overwrites the existing binding and `|page_table| + |free_list|` drops to
1 ≠ 2. -/
theorem capacity_counterexample :
    (BufferPoolManager.FetchPageImpl (BufferPoolManager.mk0 2) 0).isSome = true ∧
    BufferPoolManager.NewPageImpl poolTwoFetch = some (some (0, 1), poolTwoRun) ∧
    poolTwoRun.pool_size = 2 ∧
    poolTwoRun.page_table.length + poolTwoRun.free_list.length = 1 ∧
    poolTwoRun.page_table.length + poolTwoRun.free_list.length ≠ poolTwoRun.pool_size :=
  ⟨rfl, rfl, rfl, rfl, by decide⟩

/-- C10.  When `NewPageImpl` completes and returns null, the state is
unchanged — in particular the page table, frame table and free list are
untouched and no `allocate_page` call was issued — and the free list was
necessarily empty. -/
theorem newpage_failure_no_effect (s s' : BufferPoolManager)
    (h : BufferPoolManager.NewPageImpl s = some (none, s')) :
    s' = s ∧ s.free_list = [] := by
  unfold BufferPoolManager.NewPageImpl at h
  split at h
  next f rest heq => simp at h
  next heq =>
    refine ⟨?_, heq⟩
    split at h
    · split at h
      next hv => cases h
      next hv =>
        have h2 := Option.some.inj h
        have h3 := congrArg Prod.snd h2
        exact h3.symm
      next v rep hv =>
        simp only [Option.some.injEq, Prod.mk.injEq] at h
        exact absurd h.1 (by simp)
    · have h2 := Option.some.inj h
      have h3 := congrArg Prod.snd h2
      exact h3.symm

/-- C10 witness: on the (degenerate) pool of size 0, `NewPageImpl` returns
null and leaves the state unchanged. -/
theorem newpage_failure_no_effect_witness :
    newNullRun = BufferPoolManager.mk0 0 ∧ (BufferPoolManager.mk0 0).free_list = [] :=
  newpage_failure_no_effect (BufferPoolManager.mk0 0) newNullRun rfl

theorem getD_rotate (l : List Nat) (n j : Nat) (hj : j < l.length) :
    (l.rotate n).getD j 0 = l.getD ((n + j) % l.length) 0 := by
  have hlen : 0 < l.length := Nat.lt_of_le_of_lt (Nat.zero_le j) hj
  have hj2 : j < (l.rotate n).length := by rw [List.length_rotate]; exact hj
  rw [List.getD_eq_getElem _ _ hj2, List.getD_eq_getElem _ _ (Nat.mod_lt _ hlen)]
  rw [List.getElem_rotate]
  congr 1
  rw [Nat.add_comm]

theorem victimScan_first_false (i : Nat) : ∀ (l : List Nat) (ref : List (Nat × Bool))
    (hand fuel : Nat), l.Nodup → hand < l.length → i < l.length → i < fuel →
    (∀ j, j < i → alookup ref ((l.rotate hand).getD j 0) = some true) →
    alookup ref ((l.rotate hand).getD i 0) = some false →
    victimScan fuel l ref hand =
      some (some ((l.rotate hand).getD i 0,
        l.eraseIdx ((hand + i) % l.length),
        aerase (clearKeys ref ((l.rotate hand).take i)) ((l.rotate hand).getD i 0),
        (hand + i) % l.length)) := by
  induction i with
  | zero =>
    intro l ref hand fuel hnd hhand hi hfuel htrue hfalse
    have hlen : 0 < l.length := hi
    have hget : (l.rotate hand).getD 0 0 = l.getD hand 0 := by
      rw [getD_rotate l hand 0 hlen, Nat.add_zero, Nat.mod_eq_of_lt hhand]
    cases fuel with
    | zero => omega
    | succ k =>
      have hlne : l ≠ [] := List.length_pos.mp hlen
      have hrne : ref ≠ [] := by
        intro h
        rw [h] at hfalse
        exact Option.noConfusion hfalse
      rw [hget] at hfalse ⊢
      unfold victimScan
      rw [if_neg (by simp [hlne, hrne])]
      simp only [hfalse]
      rw [Nat.add_zero, Nat.mod_eq_of_lt hhand]
      rfl
  | succ i' ih =>
    intro l ref hand fuel hnd hhand hi hfuel htrue hfalse
    have hlen : 0 < l.length := Nat.lt_of_le_of_lt (Nat.zero_le _) hi
    cases fuel with
    | zero => omega
    | succ k =>
      have hlne : l ≠ [] := List.length_pos.mp hlen
      have hcur0 : (l.rotate hand).getD 0 0 = l.getD hand 0 := by
        rw [getD_rotate l hand 0 hlen, Nat.add_zero, Nat.mod_eq_of_lt hhand]
      have htrue0 : alookup ref (l.getD hand 0) = some true := by
        rw [← hcur0]
        exact htrue 0 (Nat.succ_pos i')
      have hrne : ref ≠ [] := by
        intro h
        rw [h] at htrue0
        exact Option.noConfusion htrue0
      unfold victimScan
      rw [if_neg (by simp [hlne, hrne])]
      simp only [htrue0]
      set hand2 := if hand + 1 = l.length then 0 else hand + 1 with hh2
      have hh2mod : hand2 = (hand + 1) % l.length := by
        rw [hh2]
        by_cases hcase : hand + 1 = l.length
        · rw [if_pos hcase, hcase, Nat.mod_self]
        · rw [if_neg hcase, Nat.mod_eq_of_lt (by omega)]
      have hhand2 : hand2 < l.length := by
        rw [hh2mod]
        exact Nat.mod_lt _ hlen
      obtain ⟨x, xs, hrot⟩ : ∃ x xs, l.rotate hand = x :: xs := by
        cases hr : l.rotate hand with
        | nil =>
          have hlr := List.length_rotate l hand
          rw [hr] at hlr
          simp at hlr
          omega
        | cons a b => exact ⟨a, b, rfl⟩
      have hxlen : xs.length + 1 = l.length := by
        have hlr := List.length_rotate l hand
        rw [hrot] at hlr
        simpa using hlr
      have hx : x = l.getD hand 0 := by
        rw [hrot] at hcur0
        simpa using hcur0
      have hrot2 : l.rotate hand2 = xs ++ [x] := by
        rw [hh2mod, List.rotate_mod, ← List.rotate_rotate, hrot]
        rw [show (1 : Nat) = 0 + 1 from rfl, List.rotate_cons_succ, List.rotate_zero]
      have hndrot : (l.rotate hand).Nodup := List.nodup_rotate.mpr hnd
      have hxnotin : x ∉ xs := by
        rw [hrot] at hndrot
        exact (List.nodup_cons.mp hndrot).1
      have hixs : i' < xs.length := by omega
      have hval : ∀ j, j < xs.length → (l.rotate hand2).getD j 0 = xs.getD j 0 := by
        intro j hj
        rw [hrot2]
        rw [List.getD_eq_getElem _ _ (show j < (xs ++ [x]).length by simp; omega)]
        rw [List.getElem_append_left hj]
        rw [List.getD_eq_getElem xs 0 hj]
      have hval2 : ∀ j, (l.rotate hand).getD (j + 1) 0 = xs.getD j 0 := by
        intro j
        rw [hrot]
        rfl
      have hvx : ∀ j, j < xs.length → xs.getD j 0 ≠ l.getD hand 0 := by
        intro j hj he
        rw [← hx] at he
        refine hxnotin (he ▸ ?_)
        rw [List.getD_eq_getElem xs 0 hj]
        exact List.getElem_mem _
      have htrue2 : ∀ j, j < i' →
          alookup (aset ref (l.getD hand 0) false) ((l.rotate hand2).getD j 0) = some true := by
        intro j hj
        have hjxs : j < xs.length := by omega
        rw [hval j hjxs, alookup_aset_ne ref false (hvx j hjxs), ← hval2 j]
        exact htrue (j + 1) (by omega)
      have hfalse2 :
          alookup (aset ref (l.getD hand 0) false) ((l.rotate hand2).getD i' 0) = some false := by
        rw [hval i' hixs, alookup_aset_ne ref false (hvx i' hixs), ← hval2 i']
        exact hfalse
      rw [ih l (aset ref (l.getD hand 0) false) hand2 k hnd hhand2 (by omega) (by omega)
        htrue2 hfalse2]
      have haveA : (l.rotate hand2).getD i' 0 = (l.rotate hand).getD (i' + 1) 0 := by
        rw [hval i' hixs, hval2 i']
      have haveB : (hand2 + i') % l.length = (hand + (i' + 1)) % l.length := by
        rw [hh2mod, Nat.mod_add_mod]
        congr 1
        omega
      have haveC : clearKeys (aset ref (l.getD hand 0) false) ((l.rotate hand2).take i') =
          clearKeys ref ((l.rotate hand).take (i' + 1)) := by
        rw [hrot2, hrot, List.take_succ_cons,
          List.take_append_of_le_length (by omega : i' ≤ xs.length), ← hx]
        rfl
      rw [haveA, haveB, haveC]

/-- C6.  For every replacer state with non-empty list, the hand on an
element of the list (index `< |L|`), and the reference bits along the scan
path defined, `victim` inspects entries cyclically starting at the hand
(position `j` of the scan is entry `j` of `L` rotated to start at the hand):
every inspected entry with reference bit true has its bit cleared and is
skipped, and the first entry with reference bit false — at scan position
`i` — is output as the victim, removed from both the list and the bit map,
with the hand moved to the next element (the element that now occupies the
victim's index; `end()` when the victim was the last).  All within
`2·|L|` inspections.  Bits of entries beyond the victim are untouched:
`clearKeys` touches only the scanned prefix.  Instantiated at spec
scenario 5 by the witness: frames [1,2,3], bits [true,false,true], hand at
1 — victim 2, bit of 1 cleared, bit of 3 untouched. -/
theorem victim_clock_scan (s : ClockReplacer) (i : Nat)
    (hnd : s.list.Nodup) (hhand : s.header < s.list.length) (hi : i < s.list.length)
    (htrue : ∀ j, j < i → alookup s.ref ((s.list.rotate s.header).getD j 0) = some true)
    (hfalse : alookup s.ref ((s.list.rotate s.header).getD i 0) = some false) :
    ClockReplacer.VictimF (2 * s.list.length) s =
      some (some ((s.list.rotate s.header).getD i 0,
        { s with
          list := s.list.eraseIdx ((s.header + i) % s.list.length)
          ref := aerase (clearKeys s.ref ((s.list.rotate s.header).take i))
            ((s.list.rotate s.header).getD i 0)
          header := (s.header + i) % s.list.length })) := by
  unfold ClockReplacer.VictimF
  rw [if_neg (by
    rw [not_or]
    exact ⟨List.length_pos.mp (by omega), by omega⟩)]
  rw [victimScan_first_false i s.list s.ref s.header (2 * s.list.length) hnd hhand hi
    (by omega) htrue hfalse]

/-- C6 witness: spec scenario 5.  `victim` on `exReplacer` returns 2, the
resulting list is [1,3] with the hand on 3, the bit of 1 is cleared and the
bit of 3 is still true. -/
theorem victim_clock_scan_witness :
    ClockReplacer.VictimF 6 exReplacer =
      some (some (2, ⟨3, [1, 3], [(1, false), (3, true)], 1⟩)) ∧
    alookup [(1, false), (3, true)] 1 = some false ∧
    alookup [(1, false), (3, true)] 3 = some true := by
  refine ⟨?_, rfl, rfl⟩
  have h := victim_clock_scan exReplacer 1 (by decide) (by decide) (by decide)
    (by decide) (by decide)
  exact h

theorem length_aset_some {α : Type} (l : List (Nat × α)) (k : Nat) (v v2 : α)
    (h : alookup l k = some v2) : (aset l k v).length = l.length := by
  induction l with
  | nil => exact Option.noConfusion h
  | cons e es ih =>
    rw [aset_cons]
    by_cases he : e.1 = k
    · rw [if_pos he]
      rfl
    · rw [alookup_cons, if_neg he] at h
      rw [if_neg he, List.length_cons, List.length_cons, ih h]

theorem length_aset_none {α : Type} (l : List (Nat × α)) (k : Nat) (v : α)
    (h : alookup l k = none) : (aset l k v).length = l.length + 1 := by
  induction l with
  | nil => rfl
  | cons e es ih =>
    rw [alookup_cons] at h
    by_cases he : e.1 = k
    · rw [if_pos he] at h
      exact Option.noConfusion h
    · rw [if_neg he] at h
      rw [aset_cons, if_neg he, List.length_cons, List.length_cons, ih h]

theorem length_aerase_some {α : Type} (l : List (Nat × α)) (k : Nat) (v : α)
    (h : alookup l k = some v) : (aerase l k).length + 1 = l.length := by
  induction l with
  | nil => exact Option.noConfusion h
  | cons e es ih =>
    rw [alookup_cons] at h
    by_cases he : e.1 = k
    · rw [aerase_cons, if_pos he, List.length_cons]
    · rw [if_neg he] at h
      rw [aerase_cons, if_neg he, List.length_cons, List.length_cons, ih h]

theorem aerase_eq_of_none {α : Type} (l : List (Nat × α)) (k : Nat)
    (h : alookup l k = none) : aerase l k = l := by
  induction l with
  | nil => rfl
  | cons e es ih =>
    rw [alookup_cons] at h
    by_cases he : e.1 = k
    · rw [if_pos he] at h
      exact Option.noConfusion h
    · rw [if_neg he] at h
      rw [aerase_cons, if_neg he, ih h]

theorem unpin_list_mem (s : ClockReplacer) (f x : Nat) (h : x ∈ (s.Unpin f).list) :
    x ∈ s.list ∨ x = f := by
  unfold ClockReplacer.Unpin at h
  cases hl : alookup s.ref f with
  | some b => rw [hl] at h; exact Or.inl h
  | none =>
    rw [hl] at h
    rcases List.mem_append.mp h with h2 | h2
    · exact Or.inl h2
    · exact Or.inr (List.mem_singleton.mp h2)

theorem pin_list_sub (s t : ClockReplacer) (f : Nat) (h : s.Pin f = some t) :
    ∀ x ∈ t.list, x ∈ s.list := by
  unfold ClockReplacer.Pin at h
  split at h
  · split at h
    · injection h with h2
      subst h2
      exact fun x hx => List.eraseIdx_subset _ _ hx
    · split at h
      · injection h with h2
        subst h2
        exact fun x hx => List.filter_subset' _ hx
      · injection h with h2
        subst h2
        exact fun x hx => hx
  · exact Option.noConfusion h

theorem victimScan_mem (fuel : Nat) : ∀ (l : List Nat) (ref : List (Nat × Bool))
    (it v : Nat) (l2 : List Nat) (r2 : List (Nat × Bool)) (h2 : Nat), it < l.length →
    victimScan fuel l ref it = some (some (v, l2, r2, h2)) →
    v ∈ l ∧ ∀ x ∈ l2, x ∈ l := by
  induction fuel with
  | zero =>
    intro l ref it v l2 r2 h2 hit h
    exact Option.noConfusion h
  | succ k ih =>
    intro l ref it v l2 r2 h2 hit h
    unfold victimScan at h
    split at h
    · exact Option.noConfusion (Option.some.inj h)
    next hcond =>
      have hlt : (if it + 1 = l.length then 0 else it + 1) < l.length := by
        split <;> omega
      generalize hw : (if it + 1 = l.length then 0 else it + 1) = it2 at h hlt
      split at h
      next hl =>
        simp only [Option.some.injEq, Prod.mk.injEq] at h
        obtain ⟨hv, hl2, _, _⟩ := h
        constructor
        · rw [← hv, List.getD_eq_getElem _ _ hit]
          exact List.getElem_mem _
        · intro x hx
          rw [← hl2] at hx
          exact List.eraseIdx_subset _ _ hx
      next hl =>
        exact ih l _ _ v l2 r2 h2 hlt h
      next hl =>
        exact ih l _ _ v l2 r2 h2 hlt h

theorem victim_mem (s : ClockReplacer) (v : Nat) (t : ClockReplacer)
    (h : s.Victim = some (some (v, t))) : v ∈ s.list ∧ ∀ x ∈ t.list, x ∈ s.list := by
  unfold ClockReplacer.Victim ClockReplacer.VictimF at h
  split at h
  · exact Option.noConfusion (Option.some.inj h)
  next hcond =>
    split at h
    · exact Option.noConfusion h
    · exact Option.noConfusion (Option.some.inj h)
    next v2 l2 r2 hh2 hsc =>
      have hit : s.header < s.list.length := by
        rw [not_or] at hcond
        omega
      have hm := victimScan_mem _ s.list s.ref s.header v2 l2 r2 hh2 hit hsc
      have h3 := Option.some.inj (Option.some.inj h)
      have hv : v2 = v := congrArg Prod.fst h3
      have ht : t = { s with list := l2, ref := r2, header := hh2 } :=
        (congrArg Prod.snd h3).symm
      rw [← hv, ht]
      exact hm

theorem asubscript_some (m : List (Nat × Nat)) (k v : Nat) (h : alookup m k = some v) :
    asubscript m k = (v, m) := by
  unfold asubscript
  rw [h]

theorem fetchPage_hit_eq (s : BufferPoolManager) (page_id f : Nat) (rep : ClockReplacer)
    (hpt : alookup s.page_table page_id = some f)
    (hpin : s.replacer.Pin f = some rep) :
    s.FetchPageImpl page_id = some (some f, { s with replacer := rep }) := by
  unfold BufferPoolManager.FetchPageImpl
  simp only [hpt, hpin]

theorem fetchPage_free_eq (s : BufferPoolManager) (page_id f : Nat) (rest : List Nat)
    (hpt : alookup s.page_table page_id = none)
    (hfree : s.free_list = f :: rest) :
    s.FetchPageImpl page_id =
      some (some f,
        { s with
          page_table := aset s.page_table page_id f
          frame_table := aset s.frame_table f page_id
          pages := s.pages.set f { s.pages.getD f Page.mk0 with
            data := (s.disk_manager.ReadPage page_id).1 }
          free_list := rest
          replacer := s.replacer.Unpin f
          disk_manager := (s.disk_manager.ReadPage page_id).2 }) := by
  unfold BufferPoolManager.FetchPageImpl
  simp only [hpt, hfree]

theorem fetchPage_victim_eq (s : BufferPoolManager) (page_id rf rpid : Nat)
    (rep : ClockReplacer)
    (hpt : alookup s.page_table page_id = none)
    (hfree : s.free_list = [])
    (hv : s.replacer.Victim = some (some (rf, rep)))
    (hrp : alookup s.frame_table rf = some rpid) :
    s.FetchPageImpl page_id =
      some (some rf,
        { s with
          page_table := aset (aerase s.page_table rpid) page_id rf
          frame_table := aset s.frame_table rf page_id
          pages := s.pages.set rf { s.pages.getD rf Page.mk0 with
            data := ((if (s.pages.getD rf Page.mk0).is_dirty then
                s.disk_manager.WritePage rpid (s.pages.getD rf Page.mk0).data
              else s.disk_manager).ReadPage page_id).1 }
          replacer := rep
          disk_manager := ((if (s.pages.getD rf Page.mk0).is_dirty then
              s.disk_manager.WritePage rpid (s.pages.getD rf Page.mk0).data
            else s.disk_manager).ReadPage page_id).2 }) := by
  unfold BufferPoolManager.FetchPageImpl
  simp only [hpt, hfree, hv, asubscript_some s.frame_table rf rpid hrp]

theorem newPage_free_eq (s : BufferPoolManager) (f : Nat) (rest : List Nat)
    (hfree : s.free_list = f :: rest) :
    s.NewPageImpl =
      some (some (s.disk_manager.next_page, f),
        { s with
          page_table := aset s.page_table s.disk_manager.next_page f
          frame_table := aset s.frame_table f s.disk_manager.next_page
          free_list := rest
          disk_manager := s.disk_manager.AllocatePage.2 }) := by
  unfold BufferPoolManager.NewPageImpl
  simp only [hfree]
  rfl

theorem newPage_victim_eq (s : BufferPoolManager) (rf rpid : Nat) (rep : ClockReplacer)
    (hfree : s.free_list = [])
    (hsz : 0 < s.replacer.Size)
    (hv : s.replacer.Victim = some (some (rf, rep)))
    (hrp : alookup s.frame_table rf = some rpid) :
    s.NewPageImpl =
      some (some ((if (s.pages.getD rf Page.mk0).is_dirty then
            s.disk_manager.WritePage rpid (s.pages.getD rf Page.mk0).data
          else s.disk_manager).next_page, rf),
        { s with
          page_table := aset (aerase s.page_table rpid)
            (if (s.pages.getD rf Page.mk0).is_dirty then
                s.disk_manager.WritePage rpid (s.pages.getD rf Page.mk0).data
              else s.disk_manager).next_page rf
          frame_table := aset s.frame_table rf
            (if (s.pages.getD rf Page.mk0).is_dirty then
                s.disk_manager.WritePage rpid (s.pages.getD rf Page.mk0).data
              else s.disk_manager).next_page
          replacer := rep
          disk_manager := (if (s.pages.getD rf Page.mk0).is_dirty then
              s.disk_manager.WritePage rpid (s.pages.getD rf Page.mk0).data
            else s.disk_manager).AllocatePage.2 }) := by
  unfold BufferPoolManager.NewPageImpl
  simp only [hfree, if_pos hsz, hv, asubscript_some s.frame_table rf rpid hrp]
  rfl


theorem unpinPage_none_eq (s : BufferPoolManager) (page_id : Nat) (d : Bool)
    (hpt : alookup s.page_table page_id = none) :
    s.UnpinPageImpl page_id d = (false, s) := by
  unfold BufferPoolManager.UnpinPageImpl
  simp only [hpt]

theorem unpinPage_some_eq (s : BufferPoolManager) (page_id f : Nat) (d : Bool)
    (hpt : alookup s.page_table page_id = some f) :
    s.UnpinPageImpl page_id d = (true, { s with
      disk_manager := if d then
          s.disk_manager.WritePage page_id (s.pages.getD f Page.mk0).data
        else s.disk_manager
      replacer := s.replacer.Unpin f }) := by
  unfold BufferPoolManager.UnpinPageImpl
  simp only [hpt]

theorem deletePage_none_eq (s : BufferPoolManager) (page_id : Nat)
    (hpt : alookup s.page_table page_id = none) :
    s.DeletePageImpl page_id = (true, s) := by
  unfold BufferPoolManager.DeletePageImpl
  simp only [hpt]

theorem deletePage_pinned_eq (s : BufferPoolManager) (page_id f : Nat)
    (hpt : alookup s.page_table page_id = some f)
    (hpin : 0 < (s.pages.getD f Page.mk0).pin_count) :
    s.DeletePageImpl page_id = (false, s) := by
  unfold BufferPoolManager.DeletePageImpl
  simp only [hpt, if_pos hpin]

theorem deletePage_ok_eq (s : BufferPoolManager) (page_id f : Nat)
    (hpt : alookup s.page_table page_id = some f)
    (hpin : ¬ 0 < (s.pages.getD f Page.mk0).pin_count) :
    s.DeletePageImpl page_id = (true, { s with
      page_table := aerase s.page_table page_id
      frame_table := aerase s.frame_table f
      free_list := s.free_list ++ [f]
      pages := s.pages.set f { s.pages.getD f Page.mk0 with data := 0 }
      disk_manager := s.disk_manager.DeallocatePage page_id }) := by
  unfold BufferPoolManager.DeletePageImpl
  simp only [hpt, if_neg hpin]

theorem foldl_writePage_next (pages : List Page) (l : List (Nat × Nat)) :
    ∀ d : DiskManager,
      (l.foldl (fun d e => d.WritePage e.1 (pages.getD e.2 Page.mk0).data) d).next_page =
        d.next_page := by
  induction l with
  | nil => intro d; rfl
  | cons e es ih =>
    intro d
    rw [List.foldl_cons, ih]
    rfl

theorem bpInv_init (n : Nat) : BPInv (BufferPoolManager.mk0 n) := by
  refine ⟨?_, ?_, ?_, ?_, ?_, ?_, ?_, ?_, ?_, ?_⟩
  · intro p f h
    exact Option.noConfusion h
  · intro f p h
    exact Option.noConfusion h
  · exact List.Pairwise.nil
  · exact List.Pairwise.nil
  · exact List.nodup_range n
  · intro f hf
    rfl
  · intro f
    simp [BufferPoolManager.mk0, List.mem_range, alookup]
  · simp [BufferPoolManager.mk0, List.length_range]
  · intro x hx
    exact absurd hx (List.not_mem_nil x)
  · intro p f h
    exact Option.noConfusion h

theorem bpInv_flush (s : BufferPoolManager) (page_id : Nat) (inv : BPInv s) :
    BPInv (s.FlushPageImpl page_id).2 := by
  cases hpt : alookup s.page_table page_id with
  | none =>
    unfold BufferPoolManager.FlushPageImpl
    simp only [hpt]
    exact inv
  | some f =>
    unfold BufferPoolManager.FlushPageImpl
    simp only [hpt]
    exact ⟨inv.ptft, inv.ftpt, inv.ndpt, inv.ndft, inv.ndfree, inv.freeNotRes,
      inv.frameCover, inv.capacity, inv.repBound, inv.ptAlloc⟩

theorem bpInv_flushAll (s : BufferPoolManager) (inv : BPInv s) :
    BPInv s.FlushAllPagesImpl := by
  refine ⟨inv.ptft, inv.ftpt, inv.ndpt, inv.ndft, inv.ndfree, inv.freeNotRes,
    inv.frameCover, inv.capacity, inv.repBound, ?_⟩
  intro p f h
  have hx := inv.ptAlloc p f h
  show p < (s.page_table.foldl
    (fun d e => d.WritePage e.1 (s.pages.getD e.2 Page.mk0).data) s.disk_manager).next_page
  rw [foldl_writePage_next]
  exact hx

theorem bpInv_unpin (s : BufferPoolManager) (page_id : Nat) (d : Bool) (inv : BPInv s) :
    BPInv (s.UnpinPageImpl page_id d).2 := by
  cases hpt : alookup s.page_table page_id with
  | none =>
    rw [unpinPage_none_eq s page_id d hpt]
    exact inv
  | some f =>
    rw [unpinPage_some_eq s page_id f d hpt]
    have hfr : alookup s.frame_table f ≠ none := by
      rw [inv.ptft page_id f hpt]
      exact fun h => Option.noConfusion h
    have hflt : f < s.pool_size := (inv.frameCover f).mpr (Or.inr hfr)
    refine ⟨inv.ptft, inv.ftpt, inv.ndpt, inv.ndft, inv.ndfree, inv.freeNotRes,
      inv.frameCover, inv.capacity, ?_, ?_⟩
    · intro x hx
      rcases unpin_list_mem s.replacer f x hx with h2 | h2
      · exact inv.repBound x h2
      · exact h2 ▸ hflt
    · intro p f2 h2
      have hx := inv.ptAlloc p f2 h2
      show p < (if d then s.disk_manager.WritePage page_id (s.pages.getD f Page.mk0).data
        else s.disk_manager).next_page
      split
      · exact hx
      · exact hx

theorem bpInv_del (s : BufferPoolManager) (page_id : Nat) (inv : BPInv s) :
    BPInv (s.DeletePageImpl page_id).2 := by
  cases hpt : alookup s.page_table page_id with
  | none =>
    rw [deletePage_none_eq s page_id hpt]
    exact inv
  | some f =>
    by_cases hpin : 0 < (s.pages.getD f Page.mk0).pin_count
    · rw [deletePage_pinned_eq s page_id f hpt hpin]
      exact inv
    · rw [deletePage_ok_eq s page_id f hpt hpin]
      have hft : alookup s.frame_table f = some page_id := inv.ptft page_id f hpt
      have hfnotfree : f ∉ s.free_list := by
        intro hin
        rw [inv.freeNotRes f hin] at hft
        exact Option.noConfusion hft
      refine ⟨?_, ?_, nodupKeys_aerase inv.ndpt, nodupKeys_aerase inv.ndft, ?_, ?_, ?_, ?_,
        inv.repBound, ?_⟩
      · intro p f2 h2
        by_cases hp : p = page_id
        · rw [hp, alookup_aerase_self s.page_table page_id inv.ndpt] at h2
          exact Option.noConfusion h2
        · rw [alookup_aerase_ne s.page_table hp] at h2
          have h3 := inv.ptft p f2 h2
          have hf2 : f2 ≠ f := by
            intro he
            rw [he, hft] at h3
            exact hp (Option.some.inj h3).symm
          rw [alookup_aerase_ne s.frame_table hf2]
          exact h3
      · intro f2 p h2
        by_cases hf2 : f2 = f
        · rw [hf2, alookup_aerase_self s.frame_table f inv.ndft] at h2
          exact Option.noConfusion h2
        · rw [alookup_aerase_ne s.frame_table hf2] at h2
          have h3 := inv.ftpt f2 p h2
          have hp : p ≠ page_id := by
            intro he
            rw [he, hpt] at h3
            exact hf2 (Option.some.inj h3).symm
          rw [alookup_aerase_ne s.page_table hp]
          exact h3
      · simp [List.nodup_append, inv.ndfree, hfnotfree]
      · intro x hx
        rcases List.mem_append.mp hx with h2 | h2
        · have hxf : x ≠ f := fun he => hfnotfree (he ▸ h2)
          rw [alookup_aerase_ne s.frame_table hxf]
          exact inv.freeNotRes x h2
        · rw [List.mem_singleton.mp h2]
          exact alookup_aerase_self s.frame_table f inv.ndft
      · intro g
        by_cases hg : g = f
        · subst hg
          constructor
          · intro _
            exact Or.inl (List.mem_append_right _ (List.mem_singleton_self g))
          · intro _
            exact (inv.frameCover g).mpr (Or.inr (by
              rw [hft]
              exact fun h => Option.noConfusion h))
        · rw [alookup_aerase_ne s.frame_table hg]
          constructor
          · intro hlt
            rcases (inv.frameCover g).mp hlt with h2 | h2
            · exact Or.inl (List.mem_append_left _ h2)
            · exact Or.inr h2
          · intro h2
            rcases h2 with h2 | h2
            · rcases List.mem_append.mp h2 with h3 | h3
              · exact (inv.frameCover g).mpr (Or.inl h3)
              · exact absurd (List.mem_singleton.mp h3) hg
            · exact (inv.frameCover g).mpr (Or.inr h2)
      · have h1 := length_aerase_some s.page_table page_id f hpt
        have h2 := inv.capacity
        rw [List.length_append]
        simp only [List.length_singleton]
        omega
      · intro p f2 h2
        by_cases hp : p = page_id
        · rw [hp, alookup_aerase_self s.page_table page_id inv.ndpt] at h2
          exact Option.noConfusion h2
        · rw [alookup_aerase_ne s.page_table hp] at h2
          exact inv.ptAlloc p f2 h2

theorem bpInv_install_free (s : BufferPoolManager) (page_id f : Nat) (rest : List Nat)
    (pages2 : List Page) (rep2 : ClockReplacer) (disk2 : DiskManager)
    (inv : BPInv s)
    (hpt : alookup s.page_table page_id = none)
    (hfree : s.free_list = f :: rest)
    (halloc : page_id < disk2.next_page)
    (hnext : s.disk_manager.next_page ≤ disk2.next_page)
    (hrep : ∀ x ∈ rep2.list, x ∈ s.replacer.list ∨ x = f) :
    BPInv { s with
      page_table := aset s.page_table page_id f
      frame_table := aset s.frame_table f page_id
      pages := pages2
      free_list := rest
      replacer := rep2
      disk_manager := disk2 } := by
  have hf_free : f ∈ s.free_list := by
    rw [hfree]
    exact List.mem_cons_self f rest
  have hf_none : alookup s.frame_table f = none := inv.freeNotRes f hf_free
  have hf_lt : f < s.pool_size := (inv.frameCover f).mpr (Or.inl hf_free)
  have hndrest : rest.Nodup := by
    have := inv.ndfree
    rw [hfree] at this
    exact (List.nodup_cons.mp this).2
  have hfrest : f ∉ rest := by
    have := inv.ndfree
    rw [hfree] at this
    exact (List.nodup_cons.mp this).1
  refine ⟨?_, ?_, nodupKeys_aset inv.ndpt, nodupKeys_aset inv.ndft, hndrest, ?_, ?_, ?_, ?_, ?_⟩
  · intro p f2 h2
    by_cases hp : p = page_id
    · rw [hp, alookup_aset_self] at h2
      rw [← Option.some.inj h2, alookup_aset_self, hp]
    · rw [alookup_aset_ne s.page_table f hp] at h2
      have h3 := inv.ptft p f2 h2
      have hf2 : f2 ≠ f := by
        intro he
        rw [he, hf_none] at h3
        exact Option.noConfusion h3
      rw [alookup_aset_ne s.frame_table page_id hf2]
      exact h3
  · intro f2 p h2
    by_cases hf2 : f2 = f
    · rw [hf2, alookup_aset_self] at h2
      rw [← Option.some.inj h2, alookup_aset_self, hf2]
    · rw [alookup_aset_ne s.frame_table page_id hf2] at h2
      have h3 := inv.ftpt f2 p h2
      have hp : p ≠ page_id := by
        intro he
        rw [he, hpt] at h3
        exact Option.noConfusion h3
      rw [alookup_aset_ne s.page_table f hp]
      exact h3
  · intro x hx
    have hxf : x ≠ f := fun he => hfrest (he ▸ hx)
    rw [alookup_aset_ne s.frame_table page_id hxf]
    exact inv.freeNotRes x (by rw [hfree]; exact List.mem_cons_of_mem f hx)
  · intro g
    by_cases hg : g = f
    · subst hg
      constructor
      · intro _
        right
        rw [alookup_aset_self]
        exact fun h2 => Option.noConfusion h2
      · intro _
        exact hf_lt
    · rw [alookup_aset_ne s.frame_table page_id hg]
      have := inv.frameCover g
      rw [hfree] at this
      constructor
      · intro hlt
        rcases this.mp hlt with h2 | h2
        · rcases List.mem_cons.mp h2 with h3 | h3
          · exact absurd h3 hg
          · exact Or.inl h3
        · exact Or.inr h2
      · intro h2
        rcases h2 with h2 | h2
        · exact this.mpr (Or.inl (List.mem_cons_of_mem f h2))
        · exact this.mpr (Or.inr h2)
  · show (aset s.page_table page_id f).length + rest.length = s.pool_size
    have h1 := length_aset_none s.page_table page_id f hpt
    have h2 := inv.capacity
    rw [hfree, List.length_cons] at h2
    rw [h1]
    omega
  · intro x hx
    rcases hrep x hx with h2 | h2
    · exact inv.repBound x h2
    · exact h2 ▸ hf_lt
  · intro p f2 h2
    show p < disk2.next_page
    by_cases hp : p = page_id
    · exact hp ▸ halloc
    · rw [alookup_aset_ne s.page_table f hp] at h2
      have := inv.ptAlloc p f2 h2
      omega

theorem bpInv_install_victim (s : BufferPoolManager) (page_id rf rpid : Nat)
    (pages2 : List Page) (rep2 : ClockReplacer) (disk2 : DiskManager)
    (inv : BPInv s)
    (hpt : alookup s.page_table page_id = none)
    (hfree : s.free_list = [])
    (hrf : alookup s.frame_table rf = some rpid)
    (halloc : page_id < disk2.next_page)
    (hnext : s.disk_manager.next_page ≤ disk2.next_page)
    (hrep : ∀ x ∈ rep2.list, x ∈ s.replacer.list) :
    BPInv { s with
      page_table := aset (aerase s.page_table rpid) page_id rf
      frame_table := aset s.frame_table rf page_id
      pages := pages2
      replacer := rep2
      disk_manager := disk2 } := by
  have hppt : alookup s.page_table rpid = some rf := inv.ftpt rf rpid hrf
  have hne : page_id ≠ rpid := by
    intro he
    rw [he, hppt] at hpt
    exact Option.noConfusion hpt
  have hndpt2 : NodupKeys (aerase s.page_table rpid) := nodupKeys_aerase inv.ndpt
  refine ⟨?_, ?_, nodupKeys_aset hndpt2, nodupKeys_aset inv.ndft, ?_, ?_, ?_, ?_, ?_, ?_⟩
  · intro p f2 h2
    by_cases hp : p = page_id
    · rw [hp, alookup_aset_self] at h2
      rw [← Option.some.inj h2, alookup_aset_self, hp]
    · rw [alookup_aset_ne (aerase s.page_table rpid) rf hp] at h2
      by_cases hp2 : p = rpid
      · rw [hp2, alookup_aerase_self s.page_table rpid inv.ndpt] at h2
        exact Option.noConfusion h2
      · rw [alookup_aerase_ne s.page_table hp2] at h2
        have h3 := inv.ptft p f2 h2
        have hf2 : f2 ≠ rf := by
          intro he
          rw [he, hrf] at h3
          exact hp2 (Option.some.inj h3).symm
        rw [alookup_aset_ne s.frame_table page_id hf2]
        exact h3
  · intro f2 p h2
    by_cases hf2 : f2 = rf
    · rw [hf2, alookup_aset_self] at h2
      rw [← Option.some.inj h2, alookup_aset_self, hf2]
    · rw [alookup_aset_ne s.frame_table page_id hf2] at h2
      have h3 := inv.ftpt f2 p h2
      have hp : p ≠ page_id := by
        intro he
        rw [he, hpt] at h3
        exact Option.noConfusion h3
      have hp2 : p ≠ rpid := by
        intro he
        rw [he, hppt] at h3
        exact hf2 (Option.some.inj h3).symm
      rw [alookup_aset_ne (aerase s.page_table rpid) rf hp,
        alookup_aerase_ne s.page_table hp2]
      exact h3
  · exact inv.ndfree
  · intro x hx
    rw [hfree] at hx
    exact absurd hx (List.not_mem_nil x)
  · intro g
    by_cases hg : g = rf
    · subst hg
      constructor
      · intro _
        right
        rw [alookup_aset_self]
        exact fun h2 => Option.noConfusion h2
      · intro _
        refine (inv.frameCover g).mpr (Or.inr ?_)
        rw [hrf]
        exact fun h2 => Option.noConfusion h2
    · rw [alookup_aset_ne s.frame_table page_id hg]
      exact inv.frameCover g
  · show (aset (aerase s.page_table rpid) page_id rf).length + s.free_list.length = s.pool_size
    have h1 := length_aerase_some s.page_table rpid rf hppt
    have h2 : alookup (aerase s.page_table rpid) page_id = none := by
      rw [alookup_aerase_ne s.page_table hne]
      exact hpt
    have h3 := length_aset_none (aerase s.page_table rpid) page_id rf h2
    have h4 := inv.capacity
    rw [h3]
    omega
  · intro x hx
    exact inv.repBound x (hrep x hx)
  · intro p f2 h2
    show p < disk2.next_page
    by_cases hp : p = page_id
    · exact hp ▸ halloc
    · rw [alookup_aset_ne (aerase s.page_table rpid) rf hp] at h2
      by_cases hp2 : p = rpid
      · rw [hp2, alookup_aerase_self s.page_table rpid inv.ndpt] at h2
        exact Option.noConfusion h2
      · rw [alookup_aerase_ne s.page_table hp2] at h2
        have := inv.ptAlloc p f2 h2
        omega

theorem fetchPage_victimfail_eq (s : BufferPoolManager) (page_id : Nat)
    (hpt : alookup s.page_table page_id = none)
    (hfree : s.free_list = [])
    (hv : s.replacer.Victim = some none) :
    s.FetchPageImpl page_id = some (none, s) := by
  unfold BufferPoolManager.FetchPageImpl
  simp only [hpt, hfree, hv]

theorem bpInv_fetch (s t : BufferPoolManager) (page_id : Nat) (r : Option Nat)
    (inv : BPInv s) (halloc : page_id < s.disk_manager.next_page)
    (h : s.FetchPageImpl page_id = some (r, t)) : BPInv t := by
  cases hpt : alookup s.page_table page_id with
  | some f =>
    cases hpin : s.replacer.Pin f with
    | none =>
      unfold BufferPoolManager.FetchPageImpl at h
      simp only [hpt, hpin] at h
      exact Option.noConfusion h
    | some rep =>
      rw [fetchPage_hit_eq s page_id f rep hpt hpin] at h
      have ht : t = { s with replacer := rep } := (congrArg Prod.snd (Option.some.inj h)).symm
      subst ht
      refine ⟨inv.ptft, inv.ftpt, inv.ndpt, inv.ndft, inv.ndfree, inv.freeNotRes,
        inv.frameCover, inv.capacity, ?_, inv.ptAlloc⟩
      intro x hx
      exact inv.repBound x (pin_list_sub s.replacer rep f hpin x hx)
  | none =>
    cases hfree : s.free_list with
    | cons f rest =>
      rw [fetchPage_free_eq s page_id f rest hpt hfree] at h
      have ht : t = _ := (congrArg Prod.snd (Option.some.inj h)).symm
      subst ht
      exact bpInv_install_free s page_id f rest _ _ _ inv hpt hfree halloc (Nat.le_refl _)
        (fun x hx => unpin_list_mem s.replacer f x hx)
    | nil =>
      cases hv : s.replacer.Victim with
      | none =>
        unfold BufferPoolManager.FetchPageImpl at h
        simp only [hpt, hfree, hv] at h
        exact Option.noConfusion h
      | some o =>
        cases o with
        | none =>
          rw [fetchPage_victimfail_eq s page_id hpt hfree hv] at h
          have ht : t = s := (congrArg Prod.snd (Option.some.inj h)).symm
          subst ht
          exact inv
        | some p =>
          obtain ⟨rf, rep⟩ := p
          have hmem := victim_mem s.replacer rf rep hv
          have hlt : rf < s.pool_size := inv.repBound rf hmem.1
          have hfr : alookup s.frame_table rf ≠ none := by
            rcases (inv.frameCover rf).mp hlt with h2 | h2
            · rw [hfree] at h2
              exact absurd h2 (List.not_mem_nil rf)
            · exact h2
          obtain ⟨rpid, hrp⟩ : ∃ rpid, alookup s.frame_table rf = some rpid := by
            cases hx : alookup s.frame_table rf with
            | none => exact absurd hx hfr
            | some v => exact ⟨v, rfl⟩
          rw [fetchPage_victim_eq s page_id rf rpid rep hpt hfree hv hrp] at h
          have ht : t = _ := (congrArg Prod.snd (Option.some.inj h)).symm
          subst ht
          have hd : ((if (s.pages.getD rf Page.mk0).is_dirty then
              s.disk_manager.WritePage rpid (s.pages.getD rf Page.mk0).data
            else s.disk_manager).ReadPage page_id).2.next_page =
              s.disk_manager.next_page := by
            show (if (s.pages.getD rf Page.mk0).is_dirty then
                s.disk_manager.WritePage rpid (s.pages.getD rf Page.mk0).data
              else s.disk_manager).next_page = s.disk_manager.next_page
            split
            · rfl
            · rfl
          refine bpInv_install_victim s page_id rf rpid _ _ _ inv hpt hfree hrp ?_ ?_
            (fun x hx => hmem.2 x hx)
          · rw [hd]
            exact halloc
          · rw [hd]

theorem bpInv_newp (s t : BufferPoolManager) (r : Option (Nat × Nat)) (inv : BPInv s)
    (h : s.NewPageImpl = some (r, t)) : BPInv t := by
  have hptn : alookup s.page_table s.disk_manager.next_page = none := by
    cases hx : alookup s.page_table s.disk_manager.next_page with
    | none => rfl
    | some f2 =>
      have := inv.ptAlloc _ f2 hx
      omega
  cases hfree : s.free_list with
  | cons f rest =>
    rw [newPage_free_eq s f rest hfree] at h
    have ht : t = _ := (congrArg Prod.snd (Option.some.inj h)).symm
    subst ht
    exact bpInv_install_free s s.disk_manager.next_page f rest _ _ _ inv hptn hfree
      (Nat.lt_succ_self _) (Nat.le_succ _) (fun x hx => Or.inl hx)
  | nil =>
    by_cases hsz : 0 < s.replacer.Size
    · cases hv : s.replacer.Victim with
      | none =>
        unfold BufferPoolManager.NewPageImpl at h
        simp only [hfree, if_pos hsz, hv] at h
        exact Option.noConfusion h
      | some o =>
        cases o with
        | none =>
          unfold BufferPoolManager.NewPageImpl at h
          simp only [hfree, if_pos hsz, hv] at h
          have ht : t = s := (congrArg Prod.snd (Option.some.inj h)).symm
          subst ht
          exact inv
        | some p =>
          obtain ⟨rf, rep⟩ := p
          have hmem := victim_mem s.replacer rf rep hv
          have hlt : rf < s.pool_size := inv.repBound rf hmem.1
          have hfr : alookup s.frame_table rf ≠ none := by
            rcases (inv.frameCover rf).mp hlt with h2 | h2
            · rw [hfree] at h2
              exact absurd h2 (List.not_mem_nil rf)
            · exact h2
          obtain ⟨rpid, hrp⟩ : ∃ rpid, alookup s.frame_table rf = some rpid := by
            cases hx : alookup s.frame_table rf with
            | none => exact absurd hx hfr
            | some v => exact ⟨v, rfl⟩
          rw [newPage_victim_eq s rf rpid rep hfree hsz hv hrp] at h
          have ht : t = _ := (congrArg Prod.snd (Option.some.inj h)).symm
          subst ht
          have hd : (if (s.pages.getD rf Page.mk0).is_dirty then
              s.disk_manager.WritePage rpid (s.pages.getD rf Page.mk0).data
            else s.disk_manager).next_page = s.disk_manager.next_page := by
            split
            · rfl
            · rfl
          have hptn2 : alookup s.page_table (if (s.pages.getD rf Page.mk0).is_dirty then
              s.disk_manager.WritePage rpid (s.pages.getD rf Page.mk0).data
            else s.disk_manager).next_page = none := by
            rw [hd]
            exact hptn
          refine bpInv_install_victim s _ rf rpid _ _ _ inv hptn2 hfree hrp ?_ ?_
            (fun x hx => hmem.2 x hx)
          · show (if (s.pages.getD rf Page.mk0).is_dirty then
                s.disk_manager.WritePage rpid (s.pages.getD rf Page.mk0).data
              else s.disk_manager).next_page <
              (if (s.pages.getD rf Page.mk0).is_dirty then
                s.disk_manager.WritePage rpid (s.pages.getD rf Page.mk0).data
              else s.disk_manager).next_page + 1
            exact Nat.lt_succ_self _
          · show s.disk_manager.next_page ≤
              (if (s.pages.getD rf Page.mk0).is_dirty then
                s.disk_manager.WritePage rpid (s.pages.getD rf Page.mk0).data
              else s.disk_manager).next_page + 1
            rw [hd]
            exact Nat.le_succ _
    · unfold BufferPoolManager.NewPageImpl at h
      simp only [hfree, if_neg hsz] at h
      have ht : t = s := (congrArg Prod.snd (Option.some.inj h)).symm
      subst ht
      exact inv


theorem bpInv_of_reach (s : BufferPoolManager) (h : BPReach s) : BPInv s := by
  induction h with
  | init n => exact bpInv_init n
  | fetch _ halloc hf ih => exact bpInv_fetch _ _ _ _ ih halloc hf
  | unpin page_id d _ ih => exact bpInv_unpin _ page_id d ih
  | flush page_id _ ih => exact bpInv_flush _ page_id ih
  | newp _ hf ih => exact bpInv_newp _ _ _ ih hf
  | del page_id _ ih => exact bpInv_del _ page_id ih
  | flushAll _ ih => exact bpInv_flushAll _ ih

/-- C9 amended.  For every sequence of public operations from the initial
state that complete without undefined behaviour and in which `fetch_page` is
invoked only on page identifiers the DiskManager has already allocated,
`|page_table| + |free_list| = pool_size` holds after each operation. -/
theorem capacity_invariant_amended (s : BufferPoolManager) (h : BPReach s) :
    s.page_table.length + s.free_list.length = s.pool_size :=
  (bpInv_of_reach s h).capacity

/-- C9 amended, witness: the state reached by `new_page`, `unpin_page(0,false)`,
`fetch_page(0)` on a fresh pool of size 2 satisfies the capacity invariant. -/
theorem capacity_invariant_amended_witness :
    wit3.page_table.length + wit3.free_list.length = wit3.pool_size := by
  have h1 : BufferPoolManager.NewPageImpl (BufferPoolManager.mk0 2) =
      some (some (0, 0), wit1) := by decide
  have h2 : BPReach wit1 := BPReach.newp (BPReach.init 2) h1
  have h3 : BPReach wit2 := BPReach.unpin 0 false h2
  have h4 : 0 < wit2.disk_manager.next_page := by decide
  have h5 : BufferPoolManager.FetchPageImpl wit2 0 = some (some 0, wit3) := by decide
  exact capacity_invariant_amended wit3 (BPReach.fetch h3 h4 h5)
